import Mathlib

/-!
Verification of the tag-balance checker in `src/find_mismatch.py`.

The Python program scans a document line by line with the regex

  `<(V)(\s*/>)|<(V)|</(V)`

where `V` is a fixed alternation of 35 tag names, and then runs a stack
automaton over the matched tuples: self-closing tokens are skipped, opening
tokens push `(name, lineNumber)`, closing tokens pop (reporting a mismatch
when the popped name differs) or — on an empty stack — report an unexpected
close and return from the function immediately.  At the end of the scan the
remaining stack frames are printed as unclosed tags, iterating the Python
list from index 0 (i.e. oldest frame first).

The embedding below models the document as a `String`, the printed
diagnostics as a `List Diag` (the "Unclosed tags:" header is rendering, not
a diagnostic), and the early `return` as a `done` flag that freezes the
state.  The unused module-level `re.findall` over the whole content and the
hardcoded example invocation at the bottom of the file have no effect on
the diagnostics and are not modelled.
-/

/-- The hardcoded tag-name vocabulary, in the exact order of the regex
alternation in `src/find_mismatch.py`.  The order matters because a Python
regex alternation tries branches left to right; the list happens to be
prefix-free, so at any position at most one name can match. -/
def vocab : List String :=
  ["div", "section", "header", "footer", "button", "span", "h1", "h2", "h3", "p",
   "Avatar", "AmbientBackground", "BatchActionBar", "ZenaBatchComposeModal",
   "NewContactModal", "ZenaCallTooltip", "IntelScoreTooltip", "Shield", "Mail",
   "Phone", "Briefcase", "Hammer", "ArrowRight", "LayoutGrid", "List", "Plus",
   "X", "Send", "Sparkles", "CheckSquare", "DollarSign", "RefreshCw", "Users",
   "Search", "UserCircle"]

/-- A matched token of the line regex.  `selfClosing` keeps the text matched
by the second capture group `(\s*/>)`, because the Python loop compares that
group against the literal string containing slash-greater. -/
inductive Tok where
  | selfClosing (name : String) (g2 : String)
  | openTag (name : String)
  | closeTag (name : String)
  deriving DecidableEq

/-- The tag name carried by a token. -/
def Tok.name : Tok → String
  | .selfClosing n _ => n
  | .openTag n => n
  | .closeTag n => n

/-- A diagnostic, one per printed line of the Python program. -/
inductive Diag where
  | unexpectedClose (name : String) (line : Nat)
  | mismatch (top : String) (topLine : Nat) (name : String) (line : Nat)
  | unclosed (name : String) (line : Nat)
  deriving DecidableEq

/-- Is the diagnostic an `unexpectedClose`? -/
def isUC : Diag → Bool
  | .unexpectedClose _ _ => true
  | _ => false

/-- Is the diagnostic an `unclosed`? -/
def isUncl : Diag → Bool
  | .unclosed _ _ => true
  | _ => false

/-- ASCII whitespace as matched by the regex class for spaces.  Newlines
cannot occur inside a line (the document was split on them first). -/
def isSpace (c : Char) : Bool :=
  c = ' ' || c = '\t' || c = '\n' || c = '\r' || c = '\x0b' || c = '\x0c'

/-- Split a list of characters into its maximal leading whitespace run and
the remainder; this is how the greedy group `(\s*/>)` must distribute,
since neither the slash nor the greater-than sign is whitespace. -/
def takeWS : List Char → List Char × List Char
  | [] => ([], [])
  | c :: cs =>
    if isSpace c then
      let p := takeWS cs
      (c :: p.1, p.2)
    else ([], c :: cs)

/-- Try the vocabulary alternation at the current position: the first name
(in regex order) that is a character-prefix of the input, together with the
remaining characters. -/
def matchVocab (cs : List Char) : Option (String × List Char) :=
  match vocab.find? (fun v => v.data.isPrefixOf cs) with
  | some v => some (v, cs.drop v.data.length)
  | none => none

/-- Strip the two closing characters (slash then greater-than) from the
front of a list, returning the remainder, or `none` when they are not
there.  This is the tail of the first regex alternative after the greedy
whitespace. -/
def dropSG : List Char → Option (List Char)
  | '/' :: '>' :: r => some r
  | _ => none

/-- Try the whole regex at the current position, alternatives in order:
self-closing (name followed by optional whitespace and the two closing
characters), then a bare open (just the name after the angle bracket), then
a close (slash then name).  Returns the token and the characters after the
match. -/
def matchTok (cs : List Char) : Option (Tok × List Char) :=
  match cs with
  | [] => none
  | c :: rest =>
    if c = '<' then
      match matchVocab rest with
      | some (v, r1) =>
        match dropSG (takeWS r1).2 with
        | some r3 => some (Tok.selfClosing v (String.mk ((takeWS r1).1 ++ ['/', '>'])), r3)
        | none => some (Tok.openTag v, r1)
      | none =>
        match rest with
        | d :: rest2 =>
          if d = '/' then
            match matchVocab rest2 with
            | some (v, r) => some (Tok.closeTag v, r)
            | none => none
          else none
        | [] => none
    else none

/-- Scan a line left to right, emitting non-overlapping matches as
`re.findall` does; the fuel argument is the number of remaining characters,
which bounds the number of steps since every step consumes at least one
character. -/
def scanAux : Nat → List Char → List Tok
  | 0, _ => []
  | _ + 1, [] => []
  | fuel + 1, c :: cs =>
    match matchTok (c :: cs) with
    | some (t, rest) => t :: scanAux fuel rest
    | none => scanAux fuel cs

/-- All regex matches of one line, in order. -/
def scanLineChars (cs : List Char) : List Tok :=
  scanAux cs.length cs

/-- Split on the newline character, exactly like the Python `split` on a
one-character separator: the empty document yields one empty line, and a
trailing newline yields a trailing empty line. -/
def splitLines : List Char → List (List Char)
  | [] => [[]]
  | c :: cs =>
    if c = '\n' then [] :: splitLines cs
    else
      match splitLines cs with
      | [] => [[c]]
      | l :: ls => (c :: l) :: ls

/-- The flattened stream of (token, 1-based line number) pairs, mirroring
the nested `for i, line in enumerate(lines)` / `for t in line_tags` loops;
`i` is the 0-based index of the first line of `ls`. -/
def docEventsAux : Nat → List (List Char) → List (Tok × Nat)
  | _, [] => []
  | i, l :: ls => (scanLineChars l).map (fun t => (t, i + 1)) ++ docEventsAux (i + 1) ls

/-- All tag events of a document, in document order with line numbers. -/
def docEvents (content : String) : List (Tok × Nat) :=
  docEventsAux 0 (splitLines content.data)

/-- The running state of the checker: the stack of open frames with the
head of the list as the top (Python appends and pops at the end of its
list), the diagnostics printed so far, and whether the early `return` has
been taken. -/
structure RState where
  stack : List (String × Nat)
  diags : List Diag
  done : Bool
  deriving DecidableEq

/-- The state at the start of a run. -/
def initState : RState := ⟨[], [], false⟩

/-- One iteration of the inner Python loop on token `t` seen on line `ln`.
After the early `return` (`done = true`) nothing further happens.  A
self-closing tuple is a no-op either way: with group two equal to the bare
two-character ending the code hits `continue`, and with extra whitespace in
group two both the opening-tag and closing-tag capture groups are empty so
neither branch fires. -/
def stepTok (st : RState) (ln : Nat) (t : Tok) : RState :=
  if st.done then st
  else
    match t with
    | .selfClosing _ _ => st
    | .openTag n => { st with stack := (n, ln) :: st.stack }
    | .closeTag n =>
      match st.stack with
      | [] => { st with diags := st.diags ++ [Diag.unexpectedClose n ln], done := true }
      | (top, topLine) :: rest =>
        if top = n then { st with stack := rest }
        else { st with stack := rest, diags := st.diags ++ [Diag.mismatch top topLine n ln] }

/-- Run the checker over a list of events from a given state. -/
def runFrom (st : RState) (evs : List (Tok × Nat)) : RState :=
  evs.foldl (fun s e => stepTok s e.2 e.1) st

/-- Run the checker over a list of events from the initial state. -/
def runEvents (evs : List (Tok × Nat)) : RState :=
  runFrom initState evs

/-- The full pipeline of `find_mismatch`: scan, run the stack automaton,
and — unless the early `return` was taken — append one `unclosed`
diagnostic per remaining frame, iterating the Python list from index 0,
i.e. from the bottom (oldest frame) of the stack to the top. -/
def find_mismatch (content : String) : List Diag :=
  let st := runEvents (docEvents content)
  if st.done then st.diags
  else st.diags ++ st.stack.reverse.map (fun fr => Diag.unclosed fr.1 fr.2)

/-- Event streams made of consecutive open/close pairs of the same name:
each open is immediately followed by its matching close. -/
inductive PairedShape : List (Tok × Nat) → Prop
  | nil : PairedShape []
  | pair (n : String) (l l' : Nat) (rest : List (Tok × Nat)) :
      PairedShape rest →
      PairedShape ((Tok.openTag n, l) :: (Tok.closeTag n, l') :: rest)

/-- The stack invariant for a bound `L` on line numbers: line numbers do
not increase from the top of the stack downwards, and every frame's line
lies between 1 and `L`. -/
def StackInv (st : RState) (L : Nat) : Prop :=
  List.Pairwise (fun a b : String × Nat => b.2 ≤ a.2) st.stack ∧
    ∀ fr ∈ st.stack, 1 ≤ fr.2 ∧ fr.2 ≤ L

/-- The discipline of `unexpectedClose` diagnostics: while the early
`return` has not been taken the diagnostic list contains none of them, and
once it has been taken the list ends with the single one that triggered
it. -/
def UCInv (st : RState) : Prop :=
  (st.done = false → st.diags.countP isUC = 0) ∧
    (st.done = true →
      ∃ pre n ln, st.diags = pre ++ [Diag.unexpectedClose n ln] ∧ pre.countP isUC = 0)

/-! ### Basic lemmas about single steps and runs -/

theorem stepTok_done (st : RState) (ln : Nat) (t : Tok) (h : st.done = true) :
    stepTok st ln t = st := by
  simp [stepTok, h]

theorem stepTok_selfClosing (st : RState) (ln : Nat) (n g : String) :
    stepTok st ln (Tok.selfClosing n g) = st := by
  unfold stepTok
  split <;> rfl

theorem stepTok_open (st : RState) (ln : Nat) (n : String) (h : st.done = false) :
    stepTok st ln (Tok.openTag n) = { st with stack := (n, ln) :: st.stack } := by
  simp [stepTok, h]

theorem stepTok_close_nil (st : RState) (ln : Nat) (n : String)
    (h : st.done = false) (hs : st.stack = []) :
    stepTok st ln (Tok.closeTag n)
      = { st with diags := st.diags ++ [Diag.unexpectedClose n ln], done := true } := by
  simp [stepTok, h, hs]

theorem stepTok_close_cons (st : RState) (ln : Nat) (n top : String)
    (topLine : Nat) (rest : List (String × Nat))
    (h : st.done = false) (hs : st.stack = (top, topLine) :: rest) :
    stepTok st ln (Tok.closeTag n)
      = if top = n then { st with stack := rest }
        else { st with stack := rest, diags := st.diags ++ [Diag.mismatch top topLine n ln] } := by
  simp [stepTok, h, hs]

theorem runFrom_nil (st : RState) : runFrom st [] = st := rfl

theorem runFrom_cons (st : RState) (e : Tok × Nat) (evs : List (Tok × Nat)) :
    runFrom st (e :: evs) = runFrom (stepTok st e.2 e.1) evs := rfl

theorem stepTok_diags (st : RState) (ln : Nat) (t : Tok) :
    (stepTok st ln t).diags = st.diags ∨
      (∃ a b c d, (stepTok st ln t).diags = st.diags ++ [Diag.mismatch a b c d]) ∨
      (∃ n l, (stepTok st ln t).diags = st.diags ++ [Diag.unexpectedClose n l]) := by
  cases h : st.done with
  | true => exact Or.inl (by rw [stepTok_done st ln t h])
  | false =>
    cases t with
    | selfClosing n g => exact Or.inl (by rw [stepTok_selfClosing])
    | openTag n => exact Or.inl (by rw [stepTok_open st ln n h])
    | closeTag n =>
      cases hs : st.stack with
      | nil => exact Or.inr (Or.inr ⟨n, ln, by rw [stepTok_close_nil st ln n h hs]⟩)
      | cons fr rest =>
        obtain ⟨top, topLine⟩ := fr
        rw [stepTok_close_cons st ln n top topLine rest h hs]
        by_cases ht : top = n
        · exact Or.inl (by simp [ht])
        · exact Or.inr (Or.inl ⟨top, topLine, n, ln, by simp [ht]⟩)

theorem runFrom_countUncl (evs : List (Tok × Nat)) :
    ∀ st : RState, ((runFrom st evs).diags).countP isUncl = st.diags.countP isUncl := by
  induction evs with
  | nil => intro st; rfl
  | cons e evs ih =>
    intro st
    rw [runFrom_cons, ih]
    rcases stepTok_diags st e.2 e.1 with h | ⟨a, b, c, d, h⟩ | ⟨n, l, h⟩ <;>
      simp [h, isUncl, List.countP_append, List.countP_cons]

theorem stepTok_UCInv (st : RState) (ln : Nat) (t : Tok) (h : UCInv st) :
    UCInv (stepTok st ln t) := by
  cases hd : st.done with
  | true => rw [stepTok_done st ln t hd]; exact h
  | false =>
    cases t with
    | selfClosing n g => rw [stepTok_selfClosing]; exact h
    | openTag n =>
      rw [stepTok_open st ln n hd]
      exact ⟨fun _ => h.1 hd, fun hc => by simp [hd] at hc⟩
    | closeTag n =>
      cases hs : st.stack with
      | nil =>
        rw [stepTok_close_nil st ln n hd hs]
        constructor
        · intro hc; simp at hc
        · intro _; exact ⟨st.diags, n, ln, rfl, h.1 hd⟩
      | cons fr rest =>
        obtain ⟨top, topLine⟩ := fr
        rw [stepTok_close_cons st ln n top topLine rest hd hs]
        by_cases ht : top = n
        · simp only [if_pos ht]
          exact ⟨fun _ => h.1 hd, fun hc => by simp [hd] at hc⟩
        · simp only [if_neg ht]
          constructor
          · intro _
            rw [List.countP_append]
            simp [isUC, h.1 hd, List.countP_cons]
          · intro hc; simp [hd] at hc

theorem runFrom_UCInv (evs : List (Tok × Nat)) :
    ∀ st : RState, UCInv st → UCInv (runFrom st evs) := by
  induction evs with
  | nil => intro st h; exact h
  | cons e evs ih =>
    intro st h
    rw [runFrom_cons]
    exact ih _ (stepTok_UCInv st e.2 e.1 h)

theorem last_decomp :
    ∀ (pre l : List Diag) (u d : Diag) (post : List Diag),
      l.countP isUC = 0 → l ++ [u] = pre ++ d :: post → isUC d = true → post = [] := by
  intro pre
  induction pre with
  | nil =>
    intro l u d post h0 heq hd
    cases l with
    | nil =>
      simp only [List.nil_append, List.cons.injEq] at heq
      exact heq.2.symm
    | cons a l' =>
      simp only [List.cons_append, List.nil_append, List.cons.injEq] at heq
      obtain ⟨rfl, -⟩ := heq
      rw [List.countP_cons, hd] at h0
      simp at h0
  | cons q pre' ih =>
    intro l u d post h0 heq hd
    cases l with
    | nil =>
      simp only [List.nil_append, List.cons_append, List.cons.injEq] at heq
      obtain ⟨-, habs⟩ := heq
      exact absurd habs.symm (by simp)
    | cons a l' =>
      simp only [List.cons_append, List.cons.injEq] at heq
      refine ih l' u d post ?_ heq.2 hd
      rw [List.countP_cons] at h0
      omega

/-! ### Scanner lemmas -/

theorem matchVocab_mem {cs : List Char} {v : String} {r : List Char}
    (h : matchVocab cs = some (v, r)) : v ∈ vocab := by
  unfold matchVocab at h
  cases hf : vocab.find? (fun v => v.data.isPrefixOf cs) with
  | none => rw [hf] at h; simp at h
  | some w =>
    rw [hf] at h
    simp only [Option.some.injEq, Prod.mk.injEq] at h
    exact h.1 ▸ List.mem_of_find?_eq_some hf

theorem matchTok_name {cs : List Char} {t : Tok} {rest : List Char}
    (h : matchTok cs = some (t, rest)) : t.name ∈ vocab := by
  cases cs with
  | nil => simp [matchTok] at h
  | cons c r =>
    simp only [matchTok] at h
    split at h
    · split at h
      · rename_i v r1 heq
        split at h
        · simp only [Option.some.injEq, Prod.mk.injEq] at h
          rw [← h.1]
          exact matchVocab_mem heq
        · simp only [Option.some.injEq, Prod.mk.injEq] at h
          rw [← h.1]
          exact matchVocab_mem heq
      · split at h
        · split at h
          · split at h
            · rename_i v rr heq2
              simp only [Option.some.injEq, Prod.mk.injEq] at h
              rw [← h.1]
              exact matchVocab_mem heq2
            · simp at h
          · simp at h
        · simp at h
    · simp at h

theorem scanAux_name :
    ∀ (fuel : Nat) (cs : List Char) (t : Tok), t ∈ scanAux fuel cs → t.name ∈ vocab := by
  intro fuel
  induction fuel with
  | zero => intro cs t ht; simp [scanAux] at ht
  | succ n ih =>
    intro cs t ht
    cases cs with
    | nil => simp [scanAux] at ht
    | cons c cs' =>
      rw [scanAux] at ht
      cases hm : matchTok (c :: cs') with
      | none =>
        rw [hm] at ht
        exact ih cs' t ht
      | some pr =>
        obtain ⟨t', rest⟩ := pr
        rw [hm] at ht
        rcases List.mem_cons.mp ht with rfl | ht'
        · exact matchTok_name hm
        · exact ih rest t ht'

theorem scanLineChars_name {cs : List Char} {t : Tok} (h : t ∈ scanLineChars cs) :
    t.name ∈ vocab :=
  scanAux_name cs.length cs t h

/-! ### Line numbers of the event stream -/

theorem docEventsAux_lb :
    ∀ (ls : List (List Char)) (i : Nat), ∀ e ∈ docEventsAux i ls, i + 1 ≤ e.2 := by
  intro ls
  induction ls with
  | nil => intro i e he; simp [docEventsAux] at he
  | cons l ls ih =>
    intro i e he
    simp only [docEventsAux] at he
    rcases List.mem_append.mp he with h1 | h2
    · obtain ⟨t, -, rfl⟩ := List.mem_map.mp h1
      exact le_refl _
    · exact le_trans (Nat.le_succ _) (ih (i + 1) e h2)

theorem docEventsAux_pw :
    ∀ (ls : List (List Char)) (i : Nat),
      List.Pairwise (fun a b : Tok × Nat => a.2 ≤ b.2) (docEventsAux i ls) := by
  intro ls
  induction ls with
  | nil => intro i; simp [docEventsAux]
  | cons l ls ih =>
    intro i
    simp only [docEventsAux]
    refine List.pairwise_append.mpr ⟨?_, ih (i + 1), ?_⟩
    · refine List.pairwise_map.mpr ?_
      have : ∀ tl : List Tok, List.Pairwise (fun _ _ : Tok => i + 1 ≤ i + 1) tl := by
        intro tl
        induction tl with
        | nil => exact List.Pairwise.nil
        | cons a tl ihtl => exact List.Pairwise.cons (fun b _ => le_refl _) ihtl
      exact this _
    · intro a ha b hb
      obtain ⟨t, -, rfl⟩ := List.mem_map.mp ha
      exact le_trans (Nat.le_succ _) (docEventsAux_lb ls (i + 1) b hb)

/-! ### Invariant preservation over a run -/

theorem runFrom_inv :
    ∀ (evs : List (Tok × Nat)) (st : RState) (L L' : Nat),
      StackInv st L → 1 ≤ L → L ≤ L' →
      (∀ e ∈ evs, L ≤ e.2 ∧ e.2 ≤ L') →
      List.Pairwise (fun a b : Tok × Nat => a.2 ≤ b.2) evs →
      StackInv (runFrom st evs) L' := by
  intro evs
  induction evs with
  | nil =>
    intro st L L' hInv hL hLL _ _
    exact ⟨hInv.1, fun fr hfr => ⟨(hInv.2 fr hfr).1, le_trans (hInv.2 fr hfr).2 hLL⟩⟩
  | cons e evs ih =>
    intro st L L' hInv hL hLL hbnd hpw
    rw [runFrom_cons]
    have he := hbnd e (List.mem_cons_self e evs)
    have hpw' := List.pairwise_cons.mp hpw
    have hstep : StackInv (stepTok st e.2 e.1) e.2 := by
      cases hd : st.done with
      | true =>
        rw [stepTok_done _ _ _ hd]
        exact ⟨hInv.1, fun fr hfr => ⟨(hInv.2 fr hfr).1, le_trans (hInv.2 fr hfr).2 he.1⟩⟩
      | false =>
        cases htk : e.1 with
        | selfClosing n g =>
          rw [stepTok_selfClosing]
          exact ⟨hInv.1, fun fr hfr => ⟨(hInv.2 fr hfr).1, le_trans (hInv.2 fr hfr).2 he.1⟩⟩
        | openTag n =>
          rw [stepTok_open _ _ _ hd]
          constructor
          · exact List.Pairwise.cons (fun b hb => le_trans (hInv.2 b hb).2 he.1) hInv.1
          · intro fr hfr
            rcases List.mem_cons.mp hfr with rfl | hfr'
            · exact ⟨le_trans hL he.1, le_refl _⟩
            · exact ⟨(hInv.2 fr hfr').1, le_trans (hInv.2 fr hfr').2 he.1⟩
        | closeTag n =>
          cases hs : st.stack with
          | nil =>
            rw [stepTok_close_nil _ _ _ hd hs]
            exact ⟨hInv.1, fun fr hfr => ⟨(hInv.2 fr hfr).1, le_trans (hInv.2 fr hfr).2 he.1⟩⟩
          | cons fr0 rest =>
            obtain ⟨top, topLine⟩ := fr0
            rw [stepTok_close_cons _ _ _ _ _ _ hd hs]
            have hrest : ∀ fr ∈ rest, 1 ≤ fr.2 ∧ fr.2 ≤ e.2 := by
              intro fr hfr
              have hmem : fr ∈ st.stack := by
                rw [hs]; exact List.mem_cons_of_mem _ hfr
              exact ⟨(hInv.2 fr hmem).1, le_trans (hInv.2 fr hmem).2 he.1⟩
            have hpwrest : List.Pairwise (fun a b : String × Nat => b.2 ≤ a.2) rest := by
              have := hInv.1
              rw [hs] at this
              exact (List.pairwise_cons.mp this).2
            by_cases ht : top = n
            · simp only [if_pos ht]
              exact ⟨hpwrest, hrest⟩
            · simp only [if_neg ht]
              exact ⟨hpwrest, hrest⟩
    exact ih (stepTok st e.2 e.1) e.2 L' hstep (le_trans hL he.1) he.2
      (fun e' he' => ⟨hpw'.1 e' he', (hbnd e' (List.mem_cons_of_mem _ he')).2⟩) hpw'.2

/-! ### Perfectly paired event streams -/

theorem runFrom_paired :
    ∀ (evs : List (Tok × Nat)), PairedShape evs →
      ∀ st : RState, st.done = false → st.stack = [] → runFrom st evs = st := by
  intro evs hshape
  induction hshape with
  | nil => intro st _ _; rfl
  | pair n l l' rest hrest ih =>
    intro st hd hs
    rw [runFrom_cons, runFrom_cons]
    have h1 : stepTok st l (Tok.openTag n) = { st with stack := [(n, l)] } := by
      rw [stepTok_open _ _ _ hd, hs]
    rw [h1]
    have h2 : stepTok { st with stack := [(n, l)] } l' (Tok.closeTag n)
        = { st with stack := ([] : List (String × Nat)) } := by
      rw [stepTok_close_cons { st with stack := [(n, l)] } l' n n l [] hd rfl]
      simp
    rw [h2]
    have h3 : { st with stack := ([] : List (String × Nat)) } = st := by
      rw [← hs]
    rw [h3]
    exact ih st hd hs

/-! ### Claims -/

/-- C1: the claim says the checker never terminates early and reports all
diagnostic classes found anywhere in the document.  The code violates this:
on `</div><span>` the event stream still contains the later span opening,
but the function returns right after printing the unexpected close, so the
span is never pushed and no unclosed diagnostic for it is ever reported. -/
theorem c1_code_behavior :
    docEvents "</div><span>" = [(Tok.closeTag "div", 1), (Tok.openTag "span", 1)]
    ∧ find_mismatch "</div><span>" = [Diag.unexpectedClose "div" 1]
    ∧ (runEvents (docEvents "</div><span>")).done = true := by
  decide

/-- C2 counterexample: the claim says unclosed diagnostics are listed
innermost-first (most recently opened first).  On `<div>` then `<span>` on
the next line the code lists the outermost `div` frame first, because the
final loop iterates the Python stack list from index 0 (oldest frame). -/
theorem c2_counterexample :
    find_mismatch "<div>\n<span>" = [Diag.unclosed "div" 1, Diag.unclosed "span" 2]
    ∧ find_mismatch "<div>\n<span>" ≠ [Diag.unclosed "span" 2, Diag.unclosed "div" 1] := by
  decide

/-- C2 (amended): when the run finishes without the early return, the
output is the in-run diagnostics followed by exactly one `unclosed`
diagnostic per remaining stack frame, listed outermost-first (bottom of the
stack, i.e. least recently opened, first), and the number of `unclosed`
diagnostics equals the final stack size. -/
theorem c2_amended (content : String)
    (h : (runEvents (docEvents content)).done = false) :
    find_mismatch content
      = (runEvents (docEvents content)).diags
        ++ ((runEvents (docEvents content)).stack.reverse.map
              fun fr => Diag.unclosed fr.1 fr.2)
    ∧ (find_mismatch content).countP isUncl
        = (runEvents (docEvents content)).stack.length := by
  have hfm : find_mismatch content
      = (runEvents (docEvents content)).diags
        ++ ((runEvents (docEvents content)).stack.reverse.map
              fun fr => Diag.unclosed fr.1 fr.2) := by
    simp [find_mismatch, h]
  refine ⟨hfm, ?_⟩
  rw [hfm, List.countP_append]
  have h1 : ((runEvents (docEvents content)).diags).countP isUncl = 0 := by
    have := runFrom_countUncl (docEvents content) initState
    simpa [runEvents, initState] using this
  rw [h1]
  simp [List.countP_map, Function.comp, isUncl]

/-- Witness for C2 (amended) at a two-line document with two unclosed
tags. -/
theorem c2_witness :
    find_mismatch "<div>\n<span>" = [Diag.unclosed "div" 1, Diag.unclosed "span" 2] := by
  have h := c2_amended "<div>\n<span>" (by decide)
  exact h.1.trans (by decide)

/-- C3 counterexample: the claim says a tag token whose name merely has a
vocabulary name as a prefix (such as `person` vs `p`) produces no event and
no diagnostic.  The regex has no word-boundary after the name, so
`<person>` is tokenized as an opening `p` and ends up reported unclosed. -/
theorem c3_counterexample :
    scanLineChars "<person>".data = [Tok.openTag "p"]
    ∧ find_mismatch "<person>" = [Diag.unclosed "p" 1]
    ∧ [Diag.unclosed "p" 1] ≠ ([] : List Diag) := by
  decide

/-- C3 (amended): every emitted event carries a vocabulary name, and a
token position that matches no vocabulary name is silently skipped with no
event and no diagnostic; but matching is prefix-based, so a name with a
vocabulary name as a proper prefix (like `person`) is tokenized as that
vocabulary name rather than skipped. -/
theorem c3_vocab_only :
    (∀ (cs : List Char) (t : Tok), t ∈ scanLineChars cs → t.name ∈ vocab)
    ∧ scanLineChars "<person>".data = [Tok.openTag "p"]
    ∧ docEvents "<table></table>" = []
    ∧ find_mismatch "<table></table>" = [] := by
  refine ⟨fun cs t ht => scanLineChars_name ht, ?_, ?_, ?_⟩ <;> decide

/-- Witness for C3 (amended): the event scanned from `<person>` carries the
vocabulary name `p`. -/
theorem c3_witness : (Tok.openTag "p").name ∈ vocab :=
  c3_vocab_only.1 "<person>".data (Tok.openTag "p") (by decide)

/-- C4 counterexample: the claim says attribute content is ignored when
classifying, so a self-closing token with attributes such as
`<div class="x"/>` is classified self-closing.  In the code the
self-closing alternative allows only whitespace between the name and the
closing characters, so this token is scanned as an opening `div` and no
self-closing token is produced at all. -/
theorem c4_counterexample :
    scanLineChars "<div class=\"x\"/>".data = [Tok.openTag "div"]
    ∧ (scanLineChars "<div class=\"x\"/>".data).countP
        (fun t => match t with | Tok.selfClosing _ _ => true | _ => false) = 0
    ∧ Tok.openTag "div" ≠ Tok.selfClosing "div" "/>" := by
  decide

/-- C4 (amended): for every vocabulary name, a token of the name followed
(after optional whitespace only) by the two closing characters is
`SelfClosing`, a token beginning with the closing slash is `Close`, and a
bare name token is `Open`; but attribute content is not skipped, so a
self-closing token carrying an attribute is scanned as `Open` instead. -/
theorem c4_classification :
    vocab.all (fun n =>
      scanLineChars ('<' :: n.data ++ ['/', '>']) == [Tok.selfClosing n "/>"]
      && scanLineChars ('<' :: n.data ++ [' ', '/', '>']) == [Tok.selfClosing n " />"]
      && scanLineChars ('<' :: '/' :: n.data ++ ['>']) == [Tok.closeTag n]
      && scanLineChars ('<' :: n.data ++ [' ', 'a', '/', '>']) == [Tok.openTag n]
      && scanLineChars ('<' :: n.data ++ ['>']) == [Tok.openTag n]) = true := by
  decide

/-- C5: a close event consumed on a non-empty stack pops exactly the top
frame, reports nothing on a name match and exactly one mismatch diagnostic
otherwise, without searching deeper frames; on
`<div><span></div></span>` this yields exactly two mismatches and an empty
final stack. -/
theorem c5_close_pop :
    (∀ (st : RState) (n : String) (ln : Nat) (top : String) (topLine : Nat)
        (rest : List (String × Nat)),
        st.done = false → st.stack = (top, topLine) :: rest →
        stepTok st ln (Tok.closeTag n)
          = if top = n then { st with stack := rest }
            else { st with stack := rest, diags := st.diags ++ [Diag.mismatch top topLine n ln] })
    ∧ find_mismatch "<div><span></div></span>"
        = [Diag.mismatch "span" 1 "div" 1, Diag.mismatch "div" 1 "span" 1]
    ∧ (runEvents (docEvents "<div><span></div></span>")).stack = [] := by
  refine ⟨fun st n ln top topLine rest h hs => stepTok_close_cons st ln n top topLine rest h hs,
    ?_, ?_⟩ <;> decide

/-- Witness for C5 at a concrete state: closing `span` over a stack whose
top is `div` pops that frame and emits the mismatch. -/
theorem c5_witness :
    stepTok ⟨[("div", 2)], [], false⟩ 3 (Tok.closeTag "span")
      = ⟨[], [Diag.mismatch "div" 2 "span" 3], false⟩ := by
  have h := c5_close_pop.1 ⟨[("div", 2)], [], false⟩ "span" 3 "div" 2 [] rfl rfl
  rw [h]
  decide

/-- C6: a close event consumed on an empty stack emits an unexpected-close
diagnostic and leaves the stack unchanged; a document whose only
vocabulary tag is a lone `</div>` yields exactly that one diagnostic and an
empty final stack. -/
theorem c6_unexpected_close :
    (∀ (st : RState) (n : String) (ln : Nat),
        st.done = false → st.stack = [] →
        stepTok st ln (Tok.closeTag n)
            = { st with diags := st.diags ++ [Diag.unexpectedClose n ln], done := true }
          ∧ (stepTok st ln (Tok.closeTag n)).stack = st.stack)
    ∧ find_mismatch "</div>" = [Diag.unexpectedClose "div" 1]
    ∧ (runEvents (docEvents "</div>")).stack = [] := by
  refine ⟨fun st n ln h hs => ⟨stepTok_close_nil st ln n h hs, ?_⟩, ?_, ?_⟩
  · rw [stepTok_close_nil st ln n h hs]
  · decide
  · decide

/-- Witness for C6 at a concrete state. -/
theorem c6_witness :
    stepTok ⟨[], [], false⟩ 5 (Tok.closeTag "div")
      = ⟨[], [Diag.unexpectedClose "div" 5], true⟩ := by
  have h := c6_unexpected_close.1 ⟨[], [], false⟩ "div" 5 rfl rfl
  rw [h.1]
  decide

/-- C7: a self-closing event is a strict no-op of the checker state — no
push, no diagnostic — so no stack frame ever originates from one.  In
`<p>text<br/>more</p>` the name `br` is not even in the vocabulary, so it
yields no event at all; `<p>text<X/>more</p>` exercises a genuine
vocabulary self-closing token, which is scanned but leaves no trace. -/
theorem c7_selfclosing_noop :
    (∀ (st : RState) (ln : Nat) (n g : String),
        stepTok st ln (Tok.selfClosing n g) = st)
    ∧ find_mismatch "<p>text<br/>more</p>" = []
    ∧ (runEvents (docEvents "<p>text<br/>more</p>")).stack = []
    ∧ scanLineChars "<p>text<X/>more</p>".data
        = [Tok.openTag "p", Tok.selfClosing "X" "/>", Tok.closeTag "p"]
    ∧ find_mismatch "<p>text<X/>more</p>" = []
    ∧ (runEvents (docEvents "<p>text<X/>more</p>")).stack = [] := by
  refine ⟨fun st ln n g => stepTok_selfClosing st ln n g, ?_, ?_, ?_, ?_, ?_⟩ <;> decide

/-- C8: a document whose event stream consists of opens each immediately
followed by the matching close produces no diagnostics and an empty final
stack. -/
theorem c8_paired_clean (content : String) (h : PairedShape (docEvents content)) :
    find_mismatch content = [] ∧ (runEvents (docEvents content)).stack = [] := by
  have hrun : runEvents (docEvents content) = initState :=
    runFrom_paired (docEvents content) h initState rfl rfl
  constructor
  · simp [find_mismatch, hrun, initState]
  · rw [hrun]
    rfl

/-- Witness for C8 on a document of two immediately closed tags. -/
theorem c8_witness :
    find_mismatch "<div></div><span></span>" = []
    ∧ (runEvents (docEvents "<div></div><span></span>")).stack = [] := by
  have hd : docEvents "<div></div><span></span>"
      = [(Tok.openTag "div", 1), (Tok.closeTag "div", 1),
         (Tok.openTag "span", 1), (Tok.closeTag "span", 1)] := by decide
  exact c8_paired_clean "<div></div><span></span>"
    (by rw [hd]
        exact PairedShape.pair "div" 1 1 _ (PairedShape.pair "span" 1 1 [] PairedShape.nil))

/-- C9: at most one unexpected-close diagnostic is ever produced in a run,
and when one is produced it is the very last output — nothing, not even the
unclosed listing, follows it. -/
theorem c9_unexpected_close_last (content : String) :
    (find_mismatch content).countP isUC ≤ 1
    ∧ ∀ (pre : List Diag) (d : Diag) (post : List Diag),
        find_mismatch content = pre ++ d :: post → isUC d = true → post = [] := by
  have hInv : UCInv (runEvents (docEvents content)) :=
    runFrom_UCInv (docEvents content) initState
      ⟨fun _ => rfl, fun hc => absurd hc (by decide)⟩
  cases hdone : (runEvents (docEvents content)).done with
  | false =>
    have h0 : ((runEvents (docEvents content)).diags).countP isUC = 0 := hInv.1 hdone
    have hall : (find_mismatch content).countP isUC = 0 := by
      simp only [find_mismatch, hdone, Bool.false_eq_true, if_false]
      rw [List.countP_append, h0]
      simp [List.countP_map, Function.comp, isUC]
    constructor
    · omega
    · intro pre d post heq hd
      rw [heq, List.countP_append, List.countP_cons, hd] at hall
      simp at hall
  | true =>
    obtain ⟨pre0, n0, l0, hdiags, hpre0⟩ := hInv.2 hdone
    have hfm : find_mismatch content = (runEvents (docEvents content)).diags := by
      simp [find_mismatch, hdone]
    constructor
    · rw [hfm, hdiags, List.countP_append, hpre0]
      simp [List.countP_cons, isUC]
    · intro pre d post heq hd
      rw [hfm, hdiags] at heq
      exact last_decomp pre pre0 (Diag.unexpectedClose n0 l0) d post hpre0 heq hd

/-- Witness for C9: on a lone `</div>` the unexpected close is the last
element of the output, so the tail after it is empty. -/
theorem c9_witness : ([] : List Diag) = [] :=
  (c9_unexpected_close_last "</div>").2 [] (Diag.unexpectedClose "div" 1) [] (by decide) rfl

/-- C10: at every point of a run, the line numbers recorded on the stack
are non-decreasing from the bottom (oldest frame) to the top (newest), and
every frame's line is at least 1 and at most the line of the event just
consumed, which is the line being scanned at that moment. -/
theorem c10_stack_lines (content : String) (k : Nat)
    (hk : k < (docEvents content).length) :
    List.Pairwise (fun a b : String × Nat => a.2 ≤ b.2)
      ((runEvents ((docEvents content).take (k + 1))).stack.reverse)
    ∧ ∀ fr ∈ (runEvents ((docEvents content).take (k + 1))).stack,
        1 ≤ fr.2 ∧ fr.2 ≤ ((docEvents content).get ⟨k, hk⟩).2 := by
  have hlb : ∀ e ∈ docEvents content, 1 ≤ e.2 := fun e he => docEventsAux_lb _ 0 e he
  have hpw : List.Pairwise (fun a b : Tok × Nat => a.2 ≤ b.2) (docEvents content) :=
    docEventsAux_pw (splitLines content.data) 0
  have hmemk : (docEvents content).get ⟨k, hk⟩ ∈ docEvents content := List.get_mem _ _ _
  have h1L : 1 ≤ ((docEvents content).get ⟨k, hk⟩).2 := hlb _ hmemk
  have htake : (docEvents content).take (k + 1)
      = (docEvents content).take k ++ [(docEvents content).get ⟨k, hk⟩] := by
    rw [List.take_succ]
    congr 1
    rw [List.getElem?_eq_getElem hk]
    rfl
  have hsub : List.Sublist ((docEvents content).take (k + 1)) (docEvents content) :=
    List.take_sublist _ _
  have hpwtake : List.Pairwise (fun a b : Tok × Nat => a.2 ≤ b.2)
      ((docEvents content).take (k + 1)) := List.Pairwise.sublist hsub hpw
  have hbnd : ∀ e ∈ (docEvents content).take (k + 1),
      1 ≤ e.2 ∧ e.2 ≤ ((docEvents content).get ⟨k, hk⟩).2 := by
    intro e he
    refine ⟨hlb e (hsub.subset he), ?_⟩
    rw [htake] at he
    rcases List.mem_append.mp he with h1 | h2
    · have hpwapp : List.Pairwise (fun a b : Tok × Nat => a.2 ≤ b.2)
          ((docEvents content).take k ++ [(docEvents content).get ⟨k, hk⟩]) :=
        htake ▸ hpwtake
      exact (List.pairwise_append.mp hpwapp).2.2 e h1 _ (by simp)
    · simp at h2
      exact h2 ▸ le_refl _
  have hres := runFrom_inv ((docEvents content).take (k + 1)) initState 1
    ((docEvents content).get ⟨k, hk⟩).2
    ⟨List.Pairwise.nil, by intro fr hfr; simp [initState] at hfr⟩
    (le_refl 1) h1L hbnd hpwtake
  constructor
  · rw [List.pairwise_reverse]
    exact hres.1
  · exact hres.2

/-- Witness for C10 after three events of a two-line document: the stack
holds the `div` frame from line 1 while line 2 is being scanned. -/
theorem c10_witness :
    (runEvents ((docEvents "<div>\n<span></span>").take 3)).stack = [("div", 1)]
    ∧ List.Pairwise (fun a b : String × Nat => a.2 ≤ b.2)
        ((runEvents ((docEvents "<div>\n<span></span>").take 3)).stack.reverse)
    ∧ (1 ≤ 1 ∧ 1 ≤ 2) := by
  have h := c10_stack_lines "<div>\n<span></span>" 2 (by decide)
  exact ⟨by decide, h.1, h.2 ("div", 1) (by decide)⟩
